import Mathlib

/-!
Formal model of the text-extraction core of the OER ingestion pipeline
(`cdk/glue/scripts/data_processing.py`): terminal-punctuation tests,
the newline-reflow engine, chunk post-processing, table rendering and
media collection.  Each Python function is embedded as an executable
Lean definition over `List Char` / `String`, and the behavioural claims
of the specification are settled as theorems below the definitions.
-/

/-- Python whitespace for `str.strip` and regex `\s` (ASCII range). -/
def pyWS (c : Char) : Bool :=
  c == ' ' || c == '\t' || c == '\n' || c == '\r' || c == '\x0b' || c == '\x0c'

/-- Drop leading and trailing whitespace, as Python `str.strip()`. -/
def pyStripList (l : List Char) : List Char :=
  ((l.dropWhile pyWS).reverse.dropWhile pyWS).reverse

/-- Python `str.strip()` on a string. -/
def pyStrip (s : String) : String :=
  String.mk (pyStripList s.data)

/-- The character class of `TERM_RE` and the leading class of `SENT_END_RE`:
sentence-terminal marks. -/
def termChar (c : Char) : Bool :=
  c == '.' || c == '!' || c == '?' || c == '…'

/-- The optional closing quote/bracket class of TERM_RE. -/
def termQuote (c : Char) : Bool :=
  c == '\'' || c == '"' || c == ')' || c == ']'

/-- The character class of `SENT_END_RE`. -/
def sentEndChar (c : Char) : Bool :=
  c == '.' || c == '!' || c == '?' || c == '…' || c == '»' || c == '”' ||
  c == '\'' || c == ')'

/-- Regex tail `\s*$`: rest of string is whitespace only. -/
def spacesOnly (l : List Char) : Bool :=
  l.all pyWS

/-- Regex tail of TERM_RE after the terminal mark: closing quotes/brackets
then whitespace to the end of the string. -/
def quotesThenSpaces (l : List Char) : Bool :=
  spacesOnly (l.dropWhile termQuote)

/-- `re.search` of TERM_RE: some suffix starts with a terminal mark followed
by closing quotes/brackets and trailing whitespace. -/
def termSearch : List Char → Bool
  | [] => false
  | c :: r => (termChar c && quotesThenSpaces r) || termSearch r

/-- `ends_with_terminal` of the source: TERM_RE searched on the stripped text. -/
def ends_with_terminal (text : String) : Bool :=
  termSearch (pyStripList text.data)

/-- `re.search` of SENT_END_RE: some suffix starts with a sentence-end class
character followed only by whitespace. -/
def sentSearch : List Char → Bool
  | [] => false
  | c :: r => (sentEndChar c && spacesOnly r) || sentSearch r

/-- The reflow engine's sentence-end test (`SENT_END_RE.search(ln)`). -/
def sentEnd (ln : String) : Bool :=
  sentSearch ln.data

/-! ## The newline-reflow engine (`reflow_newline_text`) -/

/-- Python `str.split()` with no argument: words separated by whitespace runs. -/
def pyWordsAux : List Char → List Char → List (List Char)
  | [], acc => if acc.isEmpty then [] else [acc.reverse]
  | c :: r, acc =>
    if pyWS c then
      if acc.isEmpty then pyWordsAux r [] else acc.reverse :: pyWordsAux r []
    else pyWordsAux r (c :: acc)

/-- The words of a string, as Python `str.split()`. -/
def pyWords (s : String) : List (List Char) :=
  pyWordsAux s.data []

/-- A cased character in the ASCII sense, for Python `str.isupper`. -/
def casedChar (c : Char) : Bool :=
  c.isUpper || c.isLower

/-- Python `str.isupper`: at least one cased character and no lowercase one. -/
def pyIsUpper (s : String) : Bool :=
  s.data.any casedChar && s.data.all (fun c => !c.isLower)

/-- Body class of `HEADING_LIKE_RE`: letters, digits, space and hyphen. -/
def headingBodyChar (c : Char) : Bool :=
  c.isUpper || c.isLower || c.isDigit || c == ' ' || c == '-'

/-- `HEADING_LIKE_RE.match(ln)`: leading uppercase letter or digit, then up to
80 characters of letters/digits/spaces/hyphens, anchored at both ends. -/
def headingLikeRe (ln : String) : Bool :=
  match ln.data with
  | [] => false
  | c :: r => (c.isUpper || c.isDigit) && r.length ≤ 80 && r.all headingBodyChar

/-- The heading heuristic of the reflow loop: 1 to 8 words and either fully
uppercase or matching HEADING_LIKE_RE. -/
def isHeadingLike (ln : String) : Bool :=
  let w := (pyWords ln).length
  1 ≤ w && w ≤ 8 && (pyIsUpper ln || headingLikeRe ln)

/-- `text.replace("\r\n", "\n").replace("\r", "\n")`. -/
def normNl : List Char → List Char
  | [] => []
  | '\r' :: '\n' :: r => '\n' :: normNl r
  | '\r' :: r => '\n' :: normNl r
  | c :: r => c :: normNl r

/-- `text.split("\n")`: split at every newline, keeping empty pieces. -/
def splitNl : List Char → List (List Char)
  | [] => [[]]
  | c :: r =>
    if c == '\n' then [] :: splitNl r
    else
      match splitNl r with
      | [] => [[c]]
      | h :: t => (c :: h) :: t

/-- `flush_cur`: append the space-joined, stripped buffer as a paragraph. -/
def flushCur (ps cur : List String) : List String :=
  if cur.isEmpty then ps else ps ++ [pyStrip (String.intercalate " " cur)]

/-- Whether the next line starts with a lowercase letter
(`bool(nxt) and nxt[0].islower()`). -/
def startsLower (nxt : String) : Bool :=
  match nxt.data with
  | [] => false
  | c :: _ => c.isLower

/-- One iteration of the reflow loop: current state `(paragraphs, cur)`,
the raw line, and the raw lookahead line when one exists. -/
def stepLine (st : List String × List String) (line : String)
    (nxtRaw : Option String) : List String × List String :=
  let ps := st.1
  let cur := st.2
  let ln := pyStrip line
  if ln = "" then (flushCur ps cur, [])
  else
    let nxt := match nxtRaw with | some n => pyStrip n | none => ""
    if isHeadingLike ln then (flushCur ps cur ++ [ln], [])
    else if sentEnd ln then (flushCur ps (cur ++ [ln]), [])
    else if nxt = "" then (flushCur ps (cur ++ [ln]), [])
    else if startsLower nxt then (ps, cur ++ [ln])
    else if ln.length < 80 then (ps, cur ++ [ln])
    else (flushCur ps (cur ++ [ln]), [])

/-- The reflow loop over all lines, threading the lookahead. -/
def runLines : List String × List String → List String → List String × List String
  | st, [] => st
  | st, l :: rest => runLines (stepLine st l rest.head?) rest

/-- `reflow_newline_text`: normalize newlines, split into lines, run the
line-oriented state machine, flush, and join the non-empty paragraphs. -/
def reflow_newline_text (text : String) : String :=
  let lines := (splitNl (normNl text.data)).map String.mk
  let st := runLines ([], []) lines
  let paragraphs := flushCur st.1 st.2
  String.intercalate (String.mk ['\n', '\n']) (paragraphs.filter (fun p => p ≠ ""))

/-! ## Chunk post-processing (`postprocess_documents`) -/

/-- A text chunk: page content plus a flat metadata map. -/
structure Chunk where
  text : String
  meta : List (String × String)
deriving DecidableEq

/-- The merge condition of the post-processing loop: the stripped text is
shorter than `min_chars` or does not end with terminal punctuation. -/
def needsMerge (t : String) (minChars : Nat) : Bool :=
  t.length < minChars || !ends_with_terminal t

/-- The `while i < L` loop of `postprocess_documents`, one call per value of
the index `i`: merge chunk `i` with chunk `i+1` and advance by two, or keep
chunk `i` (with stripped text) and advance by one. -/
def postprocessLoop (docs : List Chunk) (minChars : Nat) (i : Nat) : List Chunk :=
  if h : i < docs.length then
    let curText := pyStrip docs[i].text
    let curMeta := docs[i].meta
    if needsMerge curText minChars then
      if h2 : i + 1 < docs.length then
        let nextText := docs[i + 1].text
        ⟨pyStrip (curText ++ " " ++ nextText), curMeta⟩ ::
          postprocessLoop docs minChars (i + 2)
      else
        ⟨curText, curMeta⟩ :: postprocessLoop docs minChars (i + 1)
    else
      ⟨curText, curMeta⟩ :: postprocessLoop docs minChars (i + 1)
  else []
termination_by docs.length - i
decreasing_by all_goals omega

/-- Fingerprint used by the near-duplicate pass: the first 200 characters. -/
def chunkKey (c : Chunk) : String :=
  String.mk (c.text.data.take 200)

/-- The near-duplicate pass: drop a chunk whose 200-character prefix was
already seen; first occurrence wins. -/
def dedupAux : List Chunk → List String → List Chunk
  | [], _ => []
  | c :: r, seen =>
    if chunkKey c ∈ seen then dedupAux r seen
    else c :: dedupAux r (chunkKey c :: seen)

/-- `postprocess_documents`: the merge loop from index 0, then the
200-character-prefix deduplication. -/
def postprocess_documents (docs : List Chunk) (min_chars : Nat := 600) : List Chunk :=
  dedupAux (postprocessLoop docs min_chars 0) []

/-- The merge pass written as structural recursion on the chunk list, the
form in which the claims describe it: merge the head with the second chunk
and continue after both, or keep the head and continue at the tail. -/
def mergeSpec : List Chunk → Nat → List Chunk
  | [], _ => []
  | [d], _ => [⟨pyStrip d.text, d.meta⟩]
  | d1 :: d2 :: rest, minChars =>
    let t1 := pyStrip d1.text
    if needsMerge t1 minChars then
      ⟨pyStrip (t1 ++ " " ++ d2.text), d1.meta⟩ :: mergeSpec rest minChars
    else
      ⟨t1, d1.meta⟩ :: mergeSpec (d2 :: rest) minChars

/-! ## Table rendering (`render_table_markdown`)

A table node is modelled by what the renderer reads from it: the caption
text when a caption element is present, the flattened cell texts of a
`thead` element when one is present, and for every `tr` of the table (those
inside `thead` included, since `find_all` is recursive) its cells in
document order, each tagged `th` or `td`. -/

/-- One table cell: whether it is a `th`, and its extracted text. -/
structure HCell where
  isTh : Bool
  text : String
deriving DecidableEq

/-- A table element as seen by `render_table_markdown`. -/
structure HTable where
  caption : Option String
  thead : Option (List String)
  trs : List (List HCell)
deriving DecidableEq

/-- `all(h==r for h,r in zip(headers, rows[0]))`: position-wise equality over
the zip, which silently truncates to the shorter list. -/
def headerRowMatch (headers row : List String) : Bool :=
  (headers.zip row).all (fun p => p.1 == p.2)

/-- The header-duplication guard: drop the first row when headers and rows
are non-empty and the zipped cells all agree. -/
def dedupRows (headers : List String) (rows : List (List String)) :
    List (List String) :=
  match rows with
  | [] => []
  | r :: rest =>
    if !headers.isEmpty && headerRowMatch headers r then rest else r :: rest

/-- `render_table_markdown`: caption line, header and separator lines when
headers exist, then one pipe-delimited line per remaining body row. -/
def render_table_markdown (t : HTable) : String :=
  let captionStr := match t.caption with | some s => s | none => ""
  let headers : List String :=
    match t.thead with
    | some cells => cells
    | none =>
      match t.trs.head? with
      | some tr => (tr.filter (fun c => c.isTh)).map (fun c => c.text)
      | none => []
  let rows := ((t.trs.map (fun tr => tr.map (fun c => c.text))).filter
    (fun cells => !cells.isEmpty))
  let rows := dedupRows headers rows
  let lines : List String :=
    (if captionStr ≠ "" then ["[Table: " ++ captionStr ++ "]"] else []) ++
    (if !headers.isEmpty then
      ["| " ++ String.intercalate " | " headers ++ " |",
       "| " ++ String.intercalate " | " (headers.map (fun _ => "---")) ++ " |"]
     else []) ++
    rows.map (fun r => "| " ++ String.intercalate " | " r ++ " |")
  String.intercalate "\n" lines

/-- The concrete table of the specification's round-trip test: caption
"Fig 1", a thead row `A B`, body rows `1 2` and `3 4`. -/
def tableFig1 : HTable :=
  { caption := some "Fig 1"
    thead := some ["A", "B"]
    trs := [[⟨true, "A"⟩, ⟨true, "B"⟩],
            [⟨false, "1"⟩, ⟨false, "2"⟩],
            [⟨false, "3"⟩, ⟨false, "4"⟩]] }

/-! ## Media collection (`extract_media`)

A content section is modelled by the element lists that the collector's
`find_all` calls return, in document order.  An attribute that may be absent
is an `Option String`; Python truthiness (which also rejects the empty
string) is modelled explicitly. -/

/-- Python truthiness of an optional string attribute. -/
def truthy : Option String → Bool
  | some s => !(s == "")
  | none => false

/-- Python `x or y` on optional strings: `x` when truthy, else `y`. -/
def pyOr (x y : Option String) : Option String :=
  if truthy x then x else y

/-- An `img` element: `src`, `data-src`, `data-original` and `alt`. -/
structure HImg where
  src : Option String
  dataSrc : Option String
  dataOriginal : Option String
  alt : Option String
deriving DecidableEq

/-- A `figure` element: its first nested `img`, the `href` of its first
nested `a` (when that anchor has one), and its `figcaption` text. -/
structure HFigure where
  img : Option HImg
  anchorHref : Option String
  figcaption : Option String
deriving DecidableEq

/-- A `video` element. -/
structure HVideo where
  src : Option String
  poster : Option String
  controls : Bool
  sources : List (Option String)
deriving DecidableEq

/-- An `audio` element. -/
structure HAudioElem where
  src : Option String
  controls : Bool
  sources : List (Option String)
deriving DecidableEq

/-- An `iframe` element. -/
structure HIframe where
  src : Option String
  title : Option String
  width : Option String
  height : Option String
deriving DecidableEq

/-- An `a` element carrying an `href` attribute. -/
structure HAnchor where
  href : String
  text : Option String
  title : Option String
  target : Option String
  rel : Option String
  download : Option String
deriving DecidableEq

/-- An `embed` element. -/
structure HEmbed where
  src : Option String
  etype : Option String
deriving DecidableEq

/-- A content section, as the element lists `extract_media` iterates over.
`imgs` is the full recursive `img` list, so it also revisits the images
nested inside figures. -/
structure HSection where
  figures : List HFigure
  imgs : List HImg
  videos : List HVideo
  audios : List HAudioElem
  iframes : List HIframe
  anchors : List HAnchor
  embedElems : List HEmbed
deriving DecidableEq

/-- An image record of the media dictionary. -/
structure ImageRec where
  src : Option String
  alt : Option String
  href : Option String
  caption : Option String
deriving DecidableEq

/-- A video record of the media dictionary. -/
structure VideoRec where
  src : Option String
  poster : Option String
  controls : Bool
  sources : List String
deriving DecidableEq

/-- An audio record of the media dictionary. -/
structure AudioRec where
  src : Option String
  controls : Bool
  sources : List String
deriving DecidableEq

/-- An iframe record of the media dictionary. -/
structure IframeRec where
  src : Option String
  title : Option String
  width : Option String
  height : Option String
deriving DecidableEq

/-- A downloadable-file record of the media dictionary. -/
structure FileRec where
  href : String
  text : Option String
  title : Option String
  download : Option String
  ftype : String
deriving DecidableEq

/-- An embed record of the media dictionary. -/
structure EmbedRec where
  src : Option String
  etype : Option String
deriving DecidableEq

/-- A hyperlink record of the media dictionary. -/
structure LinkRec where
  href : String
  text : Option String
  title : Option String
  target : Option String
  rel : Option String
  download : Option String
deriving DecidableEq

/-- The seven-category media dictionary built by `extract_media`. -/
structure MediaRecord where
  images : List ImageRec
  videos : List VideoRec
  audioTracks : List AudioRec
  iframes : List IframeRec
  files : List FileRec
  embeds : List EmbedRec
  links : List LinkRec
deriving DecidableEq

/-- The `src` fallback of the standalone-image pass:
`img.get('src') or img.get('data-src') or img.get('data-original')`. -/
def imgFallbackSrc (img : HImg) : Option String :=
  pyOr img.src (pyOr img.dataSrc img.dataOriginal)

/-- The figure pass: one record per figure, no deduplication. -/
def figureImageRecs (figs : List HFigure) : List ImageRec :=
  figs.map (fun f =>
    { src := f.img.bind (fun i => i.src)
      alt := f.img.bind (fun i => i.alt)
      href := f.anchorHref
      caption := f.figcaption })

/-- The standalone-image pass: append a record for every `img` whose
fallback `src` is truthy and not already the `src` of a collected record. -/
def addImgs (acc : List ImageRec) : List HImg → List ImageRec
  | [] => acc
  | img :: rest =>
    let src := imgFallbackSrc img
    if truthy src && acc.all (fun x => !(x.src == src)) then
      addImgs (acc ++ [{ src := src, alt := some (img.alt.getD ""),
                         href := none, caption := none }]) rest
    else addImgs acc rest

/-- The downloadable-file extension list. -/
def fileExtensions : List String :=
  [".pdf", ".doc", ".docx", ".xls", ".xlsx",
   ".zip", ".rar", ".ppt", ".pptx", ".epub", ".txt"]

/-- Python `str.endswith`. -/
def pyEndsWith (s suffix : String) : Bool :=
  suffix.data.isSuffixOf s.data

/-- Split a character list at every occurrence of a character. -/
def splitOnC (sep : Char) : List Char → List (List Char)
  | [] => [[]]
  | c :: r =>
    if c == sep then [] :: splitOnC sep r
    else
      match splitOnC sep r with
      | [] => [[c]]
      | h :: t => (c :: h) :: t

/-- `href.split('.')[-1].lower()`: the inferred file type. -/
def inferredType (href : String) : String :=
  String.mk (((splitOnC '.' href.data).getLastD []).map Char.toLower)

/-- Python `str.lower` (ASCII). -/
def pyLower (s : String) : String :=
  String.mk (s.data.map Char.toLower)

/-- The anchor pass: for each `a href`, collect a file record when the
lowercased href ends in a known extension, and a link record unless the
href was already seen. -/
def addAnchors (files : List FileRec) (links : List LinkRec) :
    List HAnchor → List FileRec × List LinkRec
  | [] => (files, links)
  | a :: rest =>
    let href := pyStrip a.href
    let files :=
      if fileExtensions.any (fun ext => pyEndsWith (pyLower href) ext) then
        files ++ [{ href := href, text := a.text, title := a.title,
                    download := a.download, ftype := inferredType href }]
      else files
    let links :=
      if links.all (fun x => !(x.href == href)) then
        links ++ [{ href := href, text := a.text, title := a.title,
                    target := a.target, rel := a.rel, download := a.download }]
      else links
    addAnchors files links rest

/-- `extract_media`: build the seven categories from the section. -/
def extract_media (s : HSection) : MediaRecord :=
  let images := addImgs (figureImageRecs s.figures) s.imgs
  let videos := s.videos.map (fun v =>
    { src := v.src, poster := v.poster, controls := v.controls,
      sources := v.sources.filterMap (fun o => if truthy o then o else none) })
  let audioRecs := s.audios.map (fun a =>
    { src := a.src, controls := a.controls,
      sources := a.sources.filterMap (fun o => if truthy o then o else none) })
  let iframes := s.iframes.map (fun f =>
    { src := f.src, title := f.title, width := f.width, height := f.height })
  let fl := addAnchors [] [] s.anchors
  let embeds := s.embedElems.map (fun e => { src := e.src, etype := e.etype })
  { images := images, videos := videos, audioTracks := audioRecs, iframes := iframes,
    files := fl.1, embeds := embeds, links := fl.2 }

/-! ## The media dictionary as key/value entries

The source builds the media record as a dict literal with seven fixed keys
and only ever appends to the seven list values.  The entries view renders
the record in that literal's key order. -/

/-- A value of one of the seven media categories. -/
inductive MediaItem where
  | img (r : ImageRec)
  | vid (r : VideoRec)
  | aud (r : AudioRec)
  | ifr (r : IframeRec)
  | fil (r : FileRec)
  | emb (r : EmbedRec)
  | lnk (r : LinkRec)
deriving DecidableEq

/-- The dictionary entries of a media record, in the key order of the
source's dict literal. -/
def mediaEntries (m : MediaRecord) : List (String × List MediaItem) :=
  [("images", m.images.map MediaItem.img),
   ("videos", m.videos.map MediaItem.vid),
   ("audio", m.audioTracks.map MediaItem.aud),
   ("iframes", m.iframes.map MediaItem.ifr),
   ("files", m.files.map MediaItem.fil),
   ("embeds", m.embeds.map MediaItem.emb),
   ("links", m.links.map MediaItem.lnk)]

/-! ## Chapter extraction (`extract_chapter_with_tables_and_media`)

The document-order tree walk that renders each block tag to text (headings,
paragraphs, lists, tables, figures, iframes, stray images and stray text) is
abstracted as the list `blocks` of rendered block strings; the section
selection, the media pass, the per-block cleanup, the final join and the
early return when no content section exists are embedded. -/

/-- Space or tab, the class of `[ \t]+`. -/
def spTab (c : Char) : Bool :=
  c == ' ' || c == '\t'

/-- `re.sub(r'[ \t]+', ' ', b)`: collapse space/tab runs to one space. -/
def spTabFix : List Char → List Char
  | [] => []
  | [c] => if spTab c then [' '] else [c]
  | c :: d :: r =>
    if spTab c then
      if spTab d then spTabFix (d :: r) else ' ' :: d :: spTabFix r
    else c :: spTabFix (d :: r)

/-- `re.sub(r'\s+\n', '\n', b)`: inside each whitespace run, everything up
to the run's last newline collapses to one newline.  A whitespace character
is dropped exactly when a newline follows it later in the same run. -/
def wsFix : List Char → List Char
  | [] => []
  | c :: r =>
    if pyWS c && (r.takeWhile pyWS).contains '\n' then wsFix r
    else c :: wsFix r

/-- `re.sub(r'\n{3,}', '\n\n', b)`: runs of three or more newlines collapse
to two.  A newline is dropped exactly when at least two more follow it. -/
def nlFix : List Char → List Char
  | [] => []
  | c :: r =>
    if c == '\n' && (r.takeWhile (fun d => d == '\n')).length ≥ 2 then nlFix r
    else c :: nlFix r

/-- The per-block cleanup of the extractor's final pass. -/
def cleanupBlock (b : String) : String :=
  pyStrip (String.mk (nlFix (wsFix (spTabFix b.data))))

/-- The content section of a parsed chapter page: its media-bearing
elements and its rendered text blocks in document order. -/
structure HDocSection where
  media : HSection
  blocks : List String

/-- The dynamically-typed second component of the extractor's return value:
either the media dictionary, or the bare empty-list literal `[]` that the
no-content early return produces. -/
inductive MediaReturn where
  | record (m : MediaRecord)
  | emptyList
deriving DecidableEq

/-- A parsed chapter page: `content` is the first matching content section
(`soup.find('section') or soup.find(class_='chapter')`), when any. -/
structure HDoc where
  content : Option HDocSection

/-- `extract_chapter_with_tables_and_media`: early return of `("", [])`
when no content section exists; otherwise the media record plus the
cleaned-up, double-newline-joined text blocks. -/
def extract_chapter_with_tables_and_media (doc : HDoc) : String × MediaReturn :=
  match doc.content with
  | none => ("", MediaReturn.emptyList)
  | some s =>
    let media := extract_media s.media
    let cleaned := (s.blocks.map cleanupBlock).filter (fun b => b ≠ "")
    let joined := String.intercalate "\n\n" cleaned
    (pyStrip (String.mk (nlFix joined.data)), MediaReturn.record media)

/-! ## Claim-side definitions and concrete instances -/

/-- Scanning from the end of the string (head of the reversed list): skip
closing quotes/brackets and test the next character for a terminal mark. -/
def lastScan (r : List Char) : Bool :=
  match r.dropWhile termQuote with
  | [] => false
  | c :: _ => termChar c

/-- Scanning from the end of the string: skip trailing whitespace, then
closing quotes/brackets, and test the character reached. -/
def revTermCheck (r : List Char) : Bool :=
  lastScan (r.dropWhile pyWS)

/-- The specification's wording of the shared terminal-punctuation test:
after trimming trailing whitespace, the last character that is not a
closing quote or bracket is one of the four terminal marks. -/
def specTerminalTest (s : String) : Bool :=
  revTermCheck s.data.reverse

/-- A table whose `thead` holds two rows of one `th` each (flattened by
`find_all` to the header list `A B`) and whose body row is `C D`: its first
`tr` row `["A"]` is a strict prefix of the headers, not cell-for-cell equal
to them. -/
def tableDup : HTable :=
  { caption := none
    thead := some ["A", "B"]
    trs := [[⟨true, "A"⟩], [⟨true, "B"⟩], [⟨false, "C"⟩, ⟨false, "D"⟩]] }

/-- A figure wrapping an image with `src` `x`. -/
def figX : HFigure :=
  { img := some ⟨some "x", none, none, some "a picture"⟩
    anchorHref := none
    figcaption := none }

/-- A section holding two figures with the same image `src` (the recursive
`img` pass revisits both nested images). -/
def sectionTwoFigures : HSection :=
  { figures := [figX, figX]
    imgs := [⟨some "x", none, none, some "a picture"⟩,
             ⟨some "x", none, none, some "a picture"⟩]
    videos := [], audios := [], iframes := [], anchors := [], embedElems := [] }

/-- A section holding two standalone images with the same `src`. -/
def sectionTwoImgs : HSection :=
  { figures := []
    imgs := [⟨some "y", none, none, some "first"⟩,
             ⟨some "y", none, none, some "second"⟩]
    videos := [], audios := [], iframes := [], anchors := [], embedElems := [] }

/-- A section holding two hyperlinks with the same `href`. -/
def sectionTwoAnchors : HSection :=
  { figures := [], imgs := [], videos := [], audios := [], iframes := []
    anchors := [⟨"https://a.example/page", some "one", none, none, none, none⟩,
                ⟨"https://a.example/page", some "two", none, none, none, none⟩]
    embedElems := [] }

/-! ## Sanity checks and shared lemmas -/

example : ends_with_terminal (String.mk ['H', 'i', '.']) = true := by decide

example : ends_with_terminal (String.mk ['H', 'i', '.', ')', ' ']) = true := by decide

example : ends_with_terminal (String.mk ['w', 'o', 'r', 'd', ')']) = false := by decide

example : sentEnd (String.mk ['w', 'o', 'r', 'd', ')']) = true := by decide

example :
    reflow_newline_text "Hello world.\nThis continues" =
      "Hello world.\n\nThis continues" := by decide

/-- The indexed merge loop from position `i` computes the structural merge
pass on the list of chunks from position `i` on. -/
theorem postprocessLoop_eq_mergeSpec (docs : List Chunk) (m i : Nat) :
    postprocessLoop docs m i = mergeSpec (docs.drop i) m := by
  induction i using postprocessLoop.induct docs m with
  | case1 i h _tcur hm h2 ih =>
    unfold postprocessLoop
    rw [List.drop_eq_getElem_cons h, List.drop_eq_getElem_cons h2]
    simp [mergeSpec, hm, h, h2, ih]
  | case2 i h _tcur hm h2 ih =>
    unfold postprocessLoop
    have hnil : docs.drop (i + 1) = [] := List.drop_eq_nil_of_le (by omega)
    rw [List.drop_eq_getElem_cons h, hnil]
    rw [hnil] at ih
    simp [mergeSpec, hm, h, h2, ih]
  | case3 i h _tcur hm ih =>
    unfold postprocessLoop
    rw [List.drop_eq_getElem_cons h]
    by_cases h2 : i + 1 < docs.length
    · rw [List.drop_eq_getElem_cons h2] at ih ⊢
      simp [mergeSpec, hm, h, ih]
    · have hnil : docs.drop (i + 1) = [] := List.drop_eq_nil_of_le (by omega)
      rw [hnil] at ih ⊢
      simp [mergeSpec, hm, h, ih]
  | case4 i h =>
    unfold postprocessLoop
    rw [List.drop_eq_nil_of_le (by omega : docs.length ≤ i)]
    simp [mergeSpec, h]

/-- `postprocess_documents` in closed form: structural merge pass followed by
the prefix-fingerprint deduplication. -/
theorem postprocess_documents_eq (docs : List Chunk) (m : Nat) :
    postprocess_documents docs m = dedupAux (mergeSpec docs m) [] := by
  unfold postprocess_documents
  rw [postprocessLoop_eq_mergeSpec]
  rfl

example :
    postprocess_documents [⟨"a", []⟩, ⟨"b", []⟩, ⟨"This is a chunk.", []⟩] 600 =
      [⟨"a b", []⟩, ⟨"This is a chunk.", []⟩] := by
  rw [postprocess_documents_eq]; decide

example :
    postprocess_documents
        [⟨"x", [("id", "1")]⟩, ⟨"y", [("id", "2")]⟩,
         ⟨"x", [("id", "3")]⟩, ⟨"y", [("id", "4")]⟩] 600 =
      [⟨"x y", [("id", "1")]⟩] := by
  rw [postprocess_documents_eq]; decide

example :
    render_table_markdown tableFig1 =
      "[Table: Fig 1]\n| A | B |\n| --- | --- |\n| 1 | 2 |\n| 3 | 4 |" := by
  decide

example :
    (extract_media
      { figures := [], imgs := [⟨some "x", none, none, some "pic"⟩,
                                ⟨some "x", none, none, some "pic2"⟩],
        videos := [], audios := [], iframes := [], anchors := [],
        embedElems := [] }).images =
      [{ src := some "x", alt := some "pic", href := none, caption := none }] := by
  decide

example : cleanupBlock "a \t b\n\n\n\nc  \nd" = "a b\nc\nd" := by decide

/-- Whitespace characters are not terminal marks. -/
theorem ws_not_termChar {c : Char} (h : pyWS c = true) : termChar c = false := by
  simp only [pyWS, Bool.or_eq_true, beq_iff_eq, or_assoc] at h
  rcases h with rfl | rfl | rfl | rfl | rfl | rfl <;> rfl

/-- Whitespace characters are not closing quotes/brackets. -/
theorem ws_not_termQuote {c : Char} (h : pyWS c = true) : termQuote c = false := by
  simp only [pyWS, Bool.or_eq_true, beq_iff_eq, or_assoc] at h
  rcases h with rfl | rfl | rfl | rfl | rfl | rfl <;> rfl

/-- Closing quotes/brackets are not terminal marks. -/
theorem termQuote_not_termChar {c : Char} (h : termQuote c = true) :
    termChar c = false := by
  simp only [termQuote, Bool.or_eq_true, beq_iff_eq, or_assoc] at h
  rcases h with rfl | rfl | rfl | rfl <;> rfl

/-- Closing quotes/brackets are not whitespace. -/
theorem termQuote_not_ws {c : Char} (h : termQuote c = true) : pyWS c = false := by
  simp only [termQuote, Bool.or_eq_true, beq_iff_eq, or_assoc] at h
  rcases h with rfl | rfl | rfl | rfl <;> rfl

/-- When the quote scan consumes everything, the end scan fails. -/
theorem lastScan_of_dropWhile_nil {y : List Char}
    (h : y.dropWhile termQuote = []) : lastScan y = false := by
  unfold lastScan
  rw [h]

/-- End-scan of a list extended on the right by one character. -/
theorem lastScan_snoc (y : List Char) (c : Char) :
    lastScan (y ++ [c]) =
      if (y.dropWhile termQuote).isEmpty then termChar c else lastScan y := by
  unfold lastScan
  rw [List.dropWhile_append]
  by_cases hq : (y.dropWhile termQuote).isEmpty
  · rw [if_pos hq, if_pos hq]
    by_cases hc : termQuote c = true
    · simp [List.dropWhile_cons, hc, termQuote_not_termChar hc]
    · simp [List.dropWhile_cons, hc]
  · rw [if_neg hq, if_neg hq]
    cases hdq : y.dropWhile termQuote with
    | nil => rw [hdq] at hq; simp at hq
    | cons d t => simp

/-- Whitespace-then-quote scan of a list extended on the right. -/
theorem revTermCheck_snoc (m : List Char) (c : Char) :
    revTermCheck (m ++ [c]) =
      if ((m.dropWhile pyWS).dropWhile termQuote).isEmpty then termChar c
      else revTermCheck m := by
  unfold revTermCheck
  rw [List.dropWhile_append]
  by_cases hw : (m.dropWhile pyWS).isEmpty
  · have hwnil : m.dropWhile pyWS = [] := by
      cases he : m.dropWhile pyWS with
      | nil => rfl
      | cons d t => rw [he] at hw; simp at hw
    rw [if_pos hw, hwnil]
    simp only [List.dropWhile_nil, List.isEmpty_nil, if_true]
    by_cases hc : pyWS c = true
    · simp [List.dropWhile_cons, hc, lastScan, ws_not_termChar hc]
    · simp only [List.dropWhile_cons, hc, if_false, Bool.false_eq_true]
      unfold lastScan
      by_cases hq : termQuote c = true
      · simp [List.dropWhile_cons, hq, termQuote_not_termChar hq]
      · simp [List.dropWhile_cons, hq]
  · rw [if_neg hw, lastScan_snoc]

/-- A list without terminal marks never satisfies the TERM_RE search. -/
theorem termSearch_eq_false {r : List Char}
    (h : ∀ c ∈ r, termChar c = false) : termSearch r = false := by
  induction r with
  | nil => rfl
  | cons c t ih =>
    simp [termSearch, h c (by simp), ih (fun d hd => h d (by simp [hd]))]

/-- Members of a quotes-then-spaces tail are quotes or whitespace. -/
theorem qts_chars {r : List Char} (h : quotesThenSpaces r = true) :
    ∀ c ∈ r, termQuote c = true ∨ pyWS c = true := by
  intro c hc
  rw [← List.takeWhile_append_dropWhile termQuote r] at hc
  rcases List.mem_append.mp hc with h1 | h1
  · exact Or.inl (List.mem_takeWhile_imp h1)
  · unfold quotesThenSpaces spacesOnly at h
    exact Or.inr (List.all_eq_true.mp h c h1)

/-- The quotes-then-spaces test, computed from the reversed list. -/
theorem qts_rev (r : List Char) :
    quotesThenSpaces r = ((r.reverse.dropWhile pyWS).dropWhile termQuote).isEmpty := by
  induction r with
  | nil => rfl
  | cons c rest ih =>
    rw [List.reverse_cons, List.dropWhile_append]
    by_cases hA : (rest.reverse.dropWhile pyWS).isEmpty
    · have hAnil : rest.reverse.dropWhile pyWS = [] := by
        cases he : rest.reverse.dropWhile pyWS with
        | nil => rfl
        | cons d t => rw [he] at hA; simp at hA
      have hallws : spacesOnly rest = true := by
        have h1 := List.dropWhile_eq_nil_iff.mp hAnil
        unfold spacesOnly
        rw [List.all_eq_true]
        intro d hd
        exact h1 d (List.mem_reverse.mpr hd)
      rw [if_pos hA]
      by_cases hq : termQuote c = true
      · have hqts : quotesThenSpaces (c :: rest) = quotesThenSpaces rest := by
          unfold quotesThenSpaces
          rw [List.dropWhile_cons, if_pos hq]
        rw [hqts, ih, hAnil]
        simp [List.dropWhile_cons, termQuote_not_ws hq, hq]
      · have hqts : quotesThenSpaces (c :: rest) = (pyWS c && spacesOnly rest) := by
          unfold quotesThenSpaces spacesOnly
          rw [List.dropWhile_cons, if_neg hq]
          simp
        rw [hqts, hallws]
        by_cases hw : pyWS c = true
        · simp [List.dropWhile_cons, hw, hq]
        · simp [List.dropWhile_cons, hw, hq]
    · rw [if_neg hA]
      have hnonws : spacesOnly rest = false := by
        cases hsp : spacesOnly rest with
        | false => rfl
        | true =>
          exfalso
          have h2 : rest.reverse.dropWhile pyWS = [] := by
            rw [List.dropWhile_eq_nil_iff]
            intro x hx
            exact List.all_eq_true.mp hsp x (List.mem_reverse.mp hx)
          rw [h2] at hA
          simp at hA
      rw [List.dropWhile_append]
      by_cases hq : termQuote c = true
      · have hqts : quotesThenSpaces (c :: rest) = quotesThenSpaces rest := by
          unfold quotesThenSpaces
          rw [List.dropWhile_cons, if_pos hq]
        rw [hqts, ih]
        by_cases hB : ((rest.reverse.dropWhile pyWS).dropWhile termQuote).isEmpty
        · rw [if_pos hB, hB]
          simp [List.dropWhile_cons, hq]
        · rw [if_neg hB]
          cases hdq : (rest.reverse.dropWhile pyWS).dropWhile termQuote with
          | nil => rw [hdq] at hB; simp at hB
          | cons d t => simp
      · have hqts : quotesThenSpaces (c :: rest) = (pyWS c && spacesOnly rest) := by
          unfold quotesThenSpaces spacesOnly
          rw [List.dropWhile_cons, if_neg hq]
          simp
        rw [hqts, hnonws]
        by_cases hB : ((rest.reverse.dropWhile pyWS).dropWhile termQuote).isEmpty
        · rw [if_pos hB]
          simp [List.dropWhile_cons, hq]
        · rw [if_neg hB]
          simp

/-- The TERM_RE search equals the end scan of the reversed list. -/
theorem termSearch_eq_rev (l : List Char) : termSearch l = revTermCheck l.reverse := by
  induction l with
  | nil => rfl
  | cons c r ih =>
    rw [List.reverse_cons, revTermCheck_snoc, ← qts_rev r]
    by_cases hq : quotesThenSpaces r = true
    · rw [if_pos hq]
      have hterm : termSearch r = false :=
        termSearch_eq_false (fun d hd => by
          rcases qts_chars hq d hd with h1 | h1
          · exact termQuote_not_termChar h1
          · exact ws_not_termChar h1)
      simp [termSearch, hq, hterm]
    · rw [if_neg hq]
      have hq2 : quotesThenSpaces r = false := by
        cases hv : quotesThenSpaces r with
        | false => rfl
        | true => exact absurd hv hq
      simp [termSearch, hq2, ih]

/-- Appending trailing whitespace does not change the end scan. -/
theorem revTermCheck_append_ws (x : List Char) :
    ∀ w : List Char, (∀ c ∈ w, pyWS c = true) →
      revTermCheck (x ++ w) = revTermCheck x := by
  intro w
  induction w using List.reverseRecOn with
  | nil => intro _; simp
  | append_singleton w2 c ih =>
    intro hw
    rw [← List.append_assoc, revTermCheck_snoc]
    have hc : pyWS c = true := hw c (by simp)
    have ih2 := ih (fun d hd => hw d (by simp [hd]))
    by_cases he : (((x ++ w2).dropWhile pyWS).dropWhile termQuote).isEmpty
    · have henil : ((x ++ w2).dropWhile pyWS).dropWhile termQuote = [] := by
        cases hv : ((x ++ w2).dropWhile pyWS).dropWhile termQuote with
        | nil => rfl
        | cons d t => rw [hv] at he; simp at he
      have h0 : revTermCheck (x ++ w2) = false := by
        unfold revTermCheck
        exact lastScan_of_dropWhile_nil henil
      rw [if_pos he, ws_not_termChar hc, ← ih2, h0]
    · rw [if_neg he, ih2]

/-- The post-processing terminal test agrees with the specification's
last-non-quote-character characterisation on every string. -/
theorem ends_with_terminal_eq_spec (s : String) :
    ends_with_terminal s = specTerminalTest s := by
  unfold ends_with_terminal specTerminalTest pyStripList
  rw [termSearch_eq_rev, List.reverse_reverse]
  have h1 : ∀ x : List Char, revTermCheck (x.dropWhile pyWS) = revTermCheck x := by
    intro x
    unfold revTermCheck
    rw [List.dropWhile_idempotent]
  rw [h1]
  conv_rhs => rw [← List.takeWhile_append_dropWhile pyWS s.data]
  rw [List.reverse_append, revTermCheck_append_ws]
  intro c hc
  rw [List.mem_reverse] at hc
  exact List.mem_takeWhile_imp hc

/-- The deduplication pass only removes chunks. -/
theorem dedupAux_subset :
    ∀ (l : List Chunk) (seen : List String) (c : Chunk),
      c ∈ dedupAux l seen → c ∈ l := by
  intro l
  induction l with
  | nil => intro seen c h; simp [dedupAux] at h
  | cons d t ih =>
    intro seen c h
    unfold dedupAux at h
    by_cases hk : chunkKey d ∈ seen
    · rw [if_pos hk] at h
      exact List.mem_cons_of_mem d (ih _ c h)
    · rw [if_neg hk] at h
      rcases List.mem_cons.mp h with h1 | h1
      · exact h1 ▸ List.mem_cons_self d t
      · exact List.mem_cons_of_mem d (ih _ c h1)

/-- Prepending an element does not change the last element of a non-empty
list. -/
theorem getLast?_cons_of_mem {x c : Chunk} {l : List Chunk} (h : c ∈ l) :
    (x :: l).getLast? = l.getLast? := by
  cases l with
  | nil => simp at h
  | cons a t => exact List.getLast?_cons_cons

/-- Every chunk of the structural merge pass is long enough and terminal,
or the last chunk of the pass, or a merge of two adjacent input chunks. -/
theorem mergeSpec_mem :
    ∀ (docs : List Chunk) (m : Nat) (c : Chunk), c ∈ mergeSpec docs m →
      (m ≤ c.text.length ∧ ends_with_terminal c.text = true) ∨
      (mergeSpec docs m).getLast? = some c ∨
      ∃ a b l r, docs = l ++ a :: b :: r ∧
        c.text = pyStrip (pyStrip a.text ++ " " ++ b.text) ∧ c.meta = a.meta := by
  intro docs m
  induction docs, m using mergeSpec.induct with
  | case1 m =>
    intro c h
    simp [mergeSpec] at h
  | case2 m d =>
    intro c h
    simp [mergeSpec] at h
    subst h
    right; left
    simp [mergeSpec]
  | case3 d1 d2 rest m t1 hm ih =>
    intro c h
    rw [mergeSpec] at h
    rw [if_pos hm] at h
    rcases List.mem_cons.mp h with h1 | h1
    · right; right
      exact ⟨d1, d2, [], rest, by simp, by rw [h1], by rw [h1]⟩
    · rcases ih c h1 with h2 | h2 | h2
      · exact Or.inl h2
      · right; left
        rw [mergeSpec, if_pos hm, getLast?_cons_of_mem h1]
        exact h2
      · right; right
        obtain ⟨a, b, l, r, hd, ht, hmeta⟩ := h2
        exact ⟨a, b, d1 :: d2 :: l, r, by simp [hd], ht, hmeta⟩
  | case4 d1 d2 rest m t1 hm ih =>
    intro c h
    rw [mergeSpec] at h
    rw [if_neg hm] at h
    rcases List.mem_cons.mp h with h1 | h1
    · left
      have hm2 : needsMerge t1 m = false := by
        cases hv : needsMerge t1 m with
        | false => rfl
        | true => exact absurd hv hm
      unfold needsMerge at hm2
      simp only [Bool.or_eq_false_iff, Bool.not_eq_false', decide_eq_false_iff_not] at hm2
      subst h1
      constructor
      · simpa using Nat.le_of_not_lt hm2.1
      · simpa using hm2.2
    · rcases ih c h1 with h2 | h2 | h2
      · exact Or.inl h2
      · right; left
        rw [mergeSpec, if_neg hm, getLast?_cons_of_mem h1]
        exact h2
      · right; right
        obtain ⟨a, b, l, r, hd, ht, hmeta⟩ := h2
        exact ⟨a, b, d1 :: l, r, by simp [hd], ht, hmeta⟩

/-- The zipped cell-wise comparison succeeds exactly when one row is a
prefix of the other: `zip` truncates to the shorter list. -/
theorem headerRowMatch_iff (headers : List String) :
    ∀ row : List String,
      headerRowMatch headers row = true ↔
        (headers <+: row ∨ row <+: headers) := by
  induction headers with
  | nil =>
    intro row
    simp [headerRowMatch]
  | cons a h2 ih =>
    intro row
    cases row with
    | nil => simp [headerRowMatch]
    | cons b r2 =>
      unfold headerRowMatch
      rw [List.zip_cons_cons, List.all_cons]
      constructor
      · intro hx
        rw [Bool.and_eq_true] at hx
        obtain ⟨hab, hrest⟩ := hx
        have hab2 : a = b := by simpa using hab
        subst hab2
        rcases (ih r2).mp hrest with hp | hp
        · exact Or.inl (List.cons_prefix_cons.mpr ⟨rfl, hp⟩)
        · exact Or.inr (List.cons_prefix_cons.mpr ⟨rfl, hp⟩)
      · intro hx
        rcases hx with hp | hp
        · obtain ⟨hab, hp2⟩ := List.cons_prefix_cons.mp hp
          subst hab
          simp only [beq_self_eq_true, Bool.true_and]
          exact (ih r2).mpr (Or.inl hp2)
        · obtain ⟨hab, hp2⟩ := List.cons_prefix_cons.mp hp
          subst hab
          simp only [beq_self_eq_true, Bool.true_and]
          exact (ih r2).mpr (Or.inr hp2)

/-- The anchor pass keeps the collected hyperlink hrefs pairwise distinct. -/
theorem addAnchors_links_pairwise :
    ∀ (anchors : List HAnchor) (files : List FileRec) (links : List LinkRec),
      links.Pairwise (fun a b => a.href ≠ b.href) →
      (addAnchors files links anchors).2.Pairwise (fun a b => a.href ≠ b.href) := by
  intro anchors
  induction anchors with
  | nil => intro f l h; exact h
  | cons a rest ih =>
    intro f l h
    rw [addAnchors]
    apply ih
    by_cases hg : l.all (fun x => !(x.href == pyStrip a.href)) = true
    · rw [if_pos hg]
      rw [List.pairwise_append]
      refine ⟨h, List.pairwise_singleton _ _, ?_⟩
      intro x hx y hy
      simp only [List.mem_singleton] at hy
      subst hy
      have hne := List.all_eq_true.mp hg x hx
      simpa using hne
    · rw [if_neg hg]
      exact h

/-! ## The claims -/

/-- C1 (counterexample): merging is followed by a 200-character-prefix
deduplication, so the chunk merged at position 2 (text `x y`, metadata
`id 3`) is absent from the output, which keeps only the first merged chunk
with metadata `id 1`; the output therefore does not contain one chunk per
merge with the metadata of its first contributing chunk, as the claim
states. -/
theorem claim1_counterexample :
    postprocess_documents
        [⟨"x", [("id", "1")]⟩, ⟨"y", [("id", "2")]⟩,
         ⟨"x", [("id", "3")]⟩, ⟨"y", [("id", "4")]⟩] 600 =
      [⟨"x y", [("id", "1")]⟩] ∧
    (Chunk.mk "x y" [("id", "3")]) ∉ postprocess_documents
        [⟨"x", [("id", "1")]⟩, ⟨"y", [("id", "2")]⟩,
         ⟨"x", [("id", "3")]⟩, ⟨"y", [("id", "4")]⟩] 600 := by
  rw [postprocess_documents_eq]
  exact ⟨by decide, by decide⟩

/-- C1 (amended): the single left-to-right pass with lookahead one merges
chunk `i` (trimmed) with the raw text of chunk `i+1` separated by one
space, trims the result at the ends, keeps chunk `i`'s metadata, and
resumes at `i+2`; otherwise it keeps chunk `i` with trimmed text and
resumes at `i+1`; the returned list is this merge pass filtered by the
200-character-prefix deduplication. -/
theorem claim1_merge_pass (docs : List Chunk) (m : Nat) :
    postprocess_documents docs m = dedupAux (mergeSpec docs m) [] :=
  postprocess_documents_eq docs m

/-- C2 (counterexample): on `["a", "b", "This is a chunk."]` with
`min_chars = 600` the merged first chunk `a b` has length 3 and is not the
last chunk of the returned sequence, refuting the invariant as stated. -/
theorem claim2_counterexample :
    ¬ (∀ c ∈ postprocess_documents
          [⟨"a", [("id", "1")]⟩, ⟨"b", [("id", "2")]⟩,
           ⟨"This is a chunk.", [("id", "3")]⟩] 600,
        600 ≤ c.text.length ∨
          (postprocess_documents
            [⟨"a", [("id", "1")]⟩, ⟨"b", [("id", "2")]⟩,
             ⟨"This is a chunk.", [("id", "3")]⟩] 600).getLast? = some c) := by
  rw [postprocess_documents_eq]
  decide

/-- C2 (amended): every chunk returned by post-processing either has text
of length at least `min_chars` (and ends with terminal punctuation), or is
the last chunk of the merge pass, or is a merged chunk — the space-joined,
trimmed combination of two adjacent input chunks carrying the first one's
metadata; a merged chunk is never re-examined, so it may stay short. -/
theorem claim2_size_invariant (docs : List Chunk) (m : Nat) (c : Chunk)
    (h : c ∈ postprocess_documents docs m) :
    (m ≤ c.text.length ∧ ends_with_terminal c.text = true) ∨
    (mergeSpec docs m).getLast? = some c ∨
    ∃ a b l r, docs = l ++ a :: b :: r ∧
      c.text = pyStrip (pyStrip a.text ++ " " ++ b.text) ∧ c.meta = a.meta := by
  rw [postprocess_documents_eq] at h
  exact mergeSpec_mem docs m c (dedupAux_subset _ _ c h)

/-- C2 (witness): the merged chunk `a b` of the counterexample input
satisfies the amended invariant through its merge disjunct. -/
theorem claim2_size_invariant_witness :
    (600 ≤ (Chunk.mk "a b" [("id", "1")]).text.length ∧
      ends_with_terminal (Chunk.mk "a b" [("id", "1")]).text = true) ∨
    (mergeSpec [⟨"a", [("id", "1")]⟩, ⟨"b", [("id", "2")]⟩,
        ⟨"This is a chunk.", [("id", "3")]⟩] 600).getLast? =
      some ⟨"a b", [("id", "1")]⟩ ∨
    ∃ a b l r,
      [Chunk.mk "a" [("id", "1")], ⟨"b", [("id", "2")]⟩,
        ⟨"This is a chunk.", [("id", "3")]⟩] = l ++ a :: b :: r ∧
      (Chunk.mk "a b" [("id", "1")]).text =
        pyStrip (pyStrip a.text ++ " " ++ b.text) ∧
      (Chunk.mk "a b" [("id", "1")]).meta = a.meta :=
  claim2_size_invariant _ 600 _ (by rw [postprocess_documents_eq]; decide)

/-- C3 (counterexample): the reflow engine's sentence-end test accepts
`word)` (a bare closing bracket ends the line) while the chunk
post-processing test rejects it, so the two predicates differ. -/
theorem claim3_counterexample :
    sentEnd "word)" = true ∧ ends_with_terminal "word)" = false := by
  decide

/-- C3 (amended): `ends_with_terminal` holds exactly when, after trimming
whitespace, the string's last character outside the closing set
quote/double-quote/parenthesis/bracket is one of `. ! ? …`; the reflow
engine's sentence-end test is a different predicate — it also fires on a
bare closing quote or bracket, as `word)` shows. -/
theorem claim3_terminal_tests :
    (∀ s : String, ends_with_terminal s = specTerminalTest s) ∧
    sentEnd "word)" = true ∧ ends_with_terminal "word)" = false :=
  ⟨ends_with_terminal_eq_spec, by decide, by decide⟩

/-- C4: the table with caption `Fig 1`, header cells `A B` and body rows
`1 2`, `3 4` renders to exactly the specified five-line string. -/
theorem claim4_table_roundtrip :
    render_table_markdown tableFig1 =
      "[Table: Fig 1]\n| A | B |\n| --- | --- |\n| 1 | 2 |\n| 3 | 4 |" := by
  decide

/-- C5 (counterexample): headers `A B` and first body row `A` are not
cell-for-cell equal (the cell counts differ), yet the zipped comparison
truncates and the first body row is dropped. -/
theorem claim5_counterexample :
    render_table_markdown tableDup =
      "| A | B |\n| --- | --- |\n| B |\n| C | D |" ∧
    dedupRows ["A", "B"] [["A"], ["B"], ["C", "D"]] = [["B"], ["C", "D"]] ∧
    ["A"] ≠ ["A", "B"] := by
  refine ⟨by decide, by decide, by decide⟩

/-- C5 (amended): the first body row is dropped exactly when headers exist
and the zipped cells all agree, i.e. when one of the header row and the
first body row is a prefix of the other; rows that match only up to the
shorter length are therefore also dropped. -/
theorem claim5_header_guard (headers r : List String)
    (rest : List (List String)) :
    dedupRows headers (r :: rest) = rest ↔
      (headers ≠ [] ∧ (headers <+: r ∨ r <+: headers)) := by
  show (if (!headers.isEmpty && headerRowMatch headers r) = true
      then rest else r :: rest) = rest ↔ _
  by_cases hc : (!headers.isEmpty && headerRowMatch headers r) = true
  · rw [if_pos hc]
    rw [Bool.and_eq_true] at hc
    obtain ⟨h1, h2⟩ := hc
    constructor
    · intro _
      refine ⟨?_, (headerRowMatch_iff headers r).mp h2⟩
      intro hnil
      subst hnil
      simp at h1
    · intro _
      rfl
  · rw [if_neg hc]
    constructor
    · intro heq
      exfalso
      have hlen := congrArg List.length heq
      simp at hlen
    · rintro ⟨hne, hp⟩
      exfalso
      apply hc
      rw [Bool.and_eq_true]
      refine ⟨?_, (headerRowMatch_iff headers r).mpr hp⟩
      cases headers with
      | nil => exact absurd rfl hne
      | cons x xs => rfl

/-- C6: in the reflow loop the terminal-punctuation flush is tested before
the lowercase-continuation join, so a non-heading line that passes the
sentence-end test always flushes, whatever the next line is; the input
`Hello world.` + `This continues` reflows to those two paragraphs. -/
theorem claim6_terminal_precedence :
    (∀ (ps cur : List String) (line : String) (nxt : Option String),
        isHeadingLike (pyStrip line) = false → sentEnd (pyStrip line) = true →
        stepLine (ps, cur) line nxt = (flushCur ps (cur ++ [pyStrip line]), [])) ∧
    reflow_newline_text "Hello world.\nThis continues" =
      "Hello world.\n\nThis continues" := by
  constructor
  · intro ps cur line nxt hhead hsent
    have hne : pyStrip line ≠ "" := by
      intro h0
      rw [h0] at hsent
      exact absurd hsent (by decide)
    simp [stepLine, hne, hhead, hsent]
  · decide

/-- C6 (witness): a concrete terminal line flushes despite a lowercase
lookahead. -/
theorem claim6_witness :
    stepLine ([], []) "It works." (some "and then") =
      (flushCur [] ([] ++ [pyStrip "It works."]), []) :=
  claim6_terminal_precedence.1 [] [] "It works." (some "and then")
    (by decide) (by decide)

/-- C7: a heading-like line always flushes the buffered paragraph and is
emitted as its own one-line paragraph; the input `INTRODUCTION` + body line
reflows to exactly those two paragraphs. -/
theorem claim7_heading_isolation :
    (∀ (ps cur : List String) (line : String) (nxt : Option String),
        isHeadingLike (pyStrip line) = true →
        stepLine (ps, cur) line nxt = (flushCur ps cur ++ [pyStrip line], [])) ∧
    reflow_newline_text
        "INTRODUCTION\nThis is the body text that continues on and explains things." =
      "INTRODUCTION\n\nThis is the body text that continues on and explains things." := by
  constructor
  · intro ps cur line nxt hhead
    have hne : pyStrip line ≠ "" := by
      intro h0
      rw [h0] at hhead
      exact absurd hhead (by decide)
    simp [stepLine, hne, hhead]
  · decide

/-- C7 (witness): the concrete heading line is emitted on its own. -/
theorem claim7_witness :
    stepLine ([], []) "INTRODUCTION" none =
      (flushCur [] [] ++ [pyStrip "INTRODUCTION"], []) :=
  claim7_heading_isolation.1 [] [] "INTRODUCTION" none (by decide)

/-- C8 (counterexample): two figures wrapping images with the same `src`
produce two image records with that `src` — the figure pass appends without
deduplication, so the images invariant fails as stated. -/
theorem claim8_counterexample :
    (extract_media sectionTwoFigures).images.map (fun r => r.src) =
      [some "x", some "x"] ∧
    ¬ (extract_media sectionTwoFigures).images.Pairwise
        (fun a b => a.src ≠ b.src) := by
  refine ⟨by decide, by decide⟩

/-- C8 (amended): link records are always pairwise distinct in `href`
(first occurrence kept); image deduplication by `src` applies only to the
standalone-image pass, which skips an image whose resolved `src` already
appears among the collected records — so two standalone images with one
`src` give one record, and two anchors with one `href` give one link —
while figure-derived image records are appended without deduplication. -/
theorem claim8_media_dedup :
    (∀ s : HSection,
        (extract_media s).links.Pairwise (fun a b => a.href ≠ b.href)) ∧
    (extract_media sectionTwoImgs).images.length = 1 ∧
    (extract_media sectionTwoAnchors).links.length = 1 := by
  refine ⟨?_, by decide, by decide⟩
  intro s
  exact addAnchors_links_pairwise s.anchors [] [] List.Pairwise.nil

/-- C9: when the document has no content section the extractor returns the
empty string together with the bare empty-list literal — not a media
dictionary — so the second component differs from every `MediaRecord`
result, contradicting the documented `(str, dict)` return shape. -/
theorem claim9_no_section :
    extract_chapter_with_tables_and_media ⟨none⟩ = ("", MediaReturn.emptyList) ∧
    ∀ m : MediaRecord,
      (("", MediaReturn.emptyList) : String × MediaReturn) ≠
        ("", MediaReturn.record m) := by
  refine ⟨rfl, ?_⟩
  intro m h
  simp at h

/-- C10: for every section the media dictionary has exactly the seven keys
`images`, `videos`, `audio`, `iframes`, `files`, `embeds`, `links`, in the
order of the source's dict literal, each bound to a list. -/
theorem claim10_media_keys (s : HSection) :
    (mediaEntries (extract_media s)).map Prod.fst =
      ["images", "videos", "audio", "iframes", "files", "embeds", "links"] :=
  rfl
